import Mathlib

/-!
Verification of the quantitative market-analysis engine of the crypto repository.

The TypeScript source is shallowly embedded: JavaScript numbers are modelled as
rationals (ℚ), arrays as lists, `undefined`/`null` as `Option`, and the few
spots where IEEE-754 specials (NaN, Infinity) can arise are modelled by the
explicit guard that reproduces the observable comparison behaviour (a comment
marks each such spot).  Potentially non-terminating `while` loops are given
fuel and return `Option`, `none` marking divergence of the original loop.
-/

namespace Crypto

/-! ## Data model (src/types.ts) -/

/-- Candle/series point.  The TS interface `ChartPoint` also carries optional
indicator fields (macdLine, rsi, bands, ...) that none of the functions
modelled here read; `volume?` is optional in TS but always supplied by the
data layer, so it is modelled as present. -/
structure ChartPoint where
  time : String
  price : ℚ
  volume : ℚ
  high : Option ℚ
  low : Option ℚ
deriving DecidableEq

inductive Trend
  | UPTREND | DOWNTREND | RANGING
deriving DecidableEq

inductive NetFlowStatus
  | ACCUMULATION | DISTRIBUTION | NEUTRAL
deriving DecidableEq

structure WhaleMetrics where
  netFlowStatus : NetFlowStatus
  volumeAnomalyFactor : ℚ
  turnoverRatio : ℚ
  whaleAlert : String
deriving DecidableEq

inductive DivType
  | BULLISH | BEARISH | NONE
deriving DecidableEq

inductive DivStrength
  | WEAK | MEDIUM | STRONG
deriving DecidableEq

structure DivergenceResult where
  type : DivType
  strength : DivStrength
deriving DecidableEq

/-- Output record of calculateStochRSI; the TS parameter type of
calculateTechnicalScore declares rawK optional, hence `Option`. -/
structure StochOut where
  k : ℚ
  d : ℚ
  rawK : Option ℚ
deriving DecidableEq

/-! ## Small JS helpers -/

/-- JS truthiness fallback `o || p` for an optional number: `undefined` and
`0` both fall back to the default. -/
def orDefault (o : Option ℚ) (p : ℚ) : ℚ :=
  match o with
  | some x => if x = 0 then p else x
  | none => p

/-- JS `Math.round`: round half toward positive infinity. -/
def jsRound (q : ℚ) : ℤ := ⌊q + 1/2⌋

/-- Last `n` elements of a list, JS `slice(-n)`. -/
def takeLast {α : Type} (l : List α) (n : ℕ) : List α := l.drop (l.length - n)

/-! ## Indicator library (src/services/cryptoApi.ts) -/

/-- Tail of the EMA recursion: `ema = price*k + ema*(1-k)`. -/
def emaTail (k : ℚ) : ℚ → List ℚ → List ℚ
  | _, [] => []
  | ema, p :: ps =>
    let e := p * k + ema * (1 - k)
    e :: emaTail k e ps

/-- calculateEMA: simple-average seed over the first `period` values (the JS
seed loop reads `prices[i] || 0`, which equals `prices[i]` for numeric
entries), then the exponential recursion.  NaN entries are `none`. -/
def calculateEMA (prices : List ℚ) (period : ℕ) : List (Option ℚ) :=
  if prices.length < period then List.replicate prices.length none
  else
    let k : ℚ := 2 / ((period : ℚ) + 1)
    let seed : ℚ := (prices.take period).sum / (period : ℚ)
    List.replicate (period - 1) none ++
      (seed :: emaTail k seed (prices.drop period)).map some

/-- Per-index deltas: `changes[0] = 0`, `changes[i] = prices[i] - prices[i-1]`. -/
def changesOf (prices : List ℚ) : List ℚ :=
  match prices with
  | [] => []
  | _ :: _ => 0 :: List.zipWith (fun a b => a - b) (prices.drop 1) prices

/-- Positive part of a delta. -/
def gainOf (c : ℚ) : ℚ := if 0 < c then c else 0

/-- Magnitude of a negative delta. -/
def lossOf (c : ℚ) : ℚ := if c < 0 then |c| else 0

/-- RSI from the rolling averages; returns 100 when the average loss is 0
(the source never divides by zero). -/
def rsiValue (avgGain avgLoss : ℚ) : ℚ :=
  if avgLoss = 0 then 100 else 100 - 100 / (1 + avgGain / avgLoss)

/-- Wilder smoothing steps after the seed:
`avg = (avg*(period-1) + current) / period`. -/
def rsiTail (period : ℕ) : ℚ → ℚ → List ℚ → List ℚ
  | _, _, [] => []
  | avgGain, avgLoss, c :: cs =>
    let g := (avgGain * ((period : ℚ) - 1) + gainOf c) / (period : ℚ)
    let l := (avgLoss * ((period : ℚ) - 1) + lossOf c) / (period : ℚ)
    rsiValue g l :: rsiTail period g l cs

/-- calculateRSIArray: `undefined` (`none`) below `period`; the value at
index `period` is seeded from the first `period` deltas, later indices use
Wilder smoothing. -/
def calculateRSIArray (prices : List ℚ) (period : ℕ) : List (Option ℚ) :=
  if prices.length < period + 1 then List.replicate prices.length none
  else
    let changes := changesOf prices
    let seedGain := (((changes.drop 1).take period).map gainOf).sum / (period : ℚ)
    let seedLoss := (((changes.drop 1).take period).map lossOf).sum / (period : ℚ)
    List.replicate period none ++
      (rsiValue seedGain seedLoss ::
        rsiTail period seedGain seedLoss (changes.drop (period + 1))).map some

/-- calculateRSI: last entry of the RSI array, `null` when the series is not
longer than the period. -/
def calculateRSI (prices : List ℚ) (period : ℕ) : Option ℚ :=
  if prices.length ≤ period then none
  else (calculateRSIArray prices period).getLastD none

/-- calculateATR: mean of the last `period` true ranges; `null` when fewer
than `period+1` candles.  Out-of-range reads (possible in JS only for
ragged input arrays, which no caller produces) default to 0. -/
def calculateATR (highs lows closes : List ℚ) (period : ℕ) : Option ℚ :=
  if highs.length < period + 1 then none
  else
    let tr := (List.range' 1 (highs.length - 1)).map (fun i =>
      let hl := highs.getD i 0 - lows.getD i 0
      let hc := |highs.getD i 0 - closes.getD (i - 1) 0|
      let lc := |lows.getD i 0 - closes.getD (i - 1) 0|
      max hl (max hc lc))
    if tr.length < period then none
    else some ((tr.drop (tr.length - period)).sum / (period : ℚ))

/-- calculateADX: the volatility-ratio proxy of the source, not canonical
Wilder ADX; scales mean absolute close-to-close change into [10,60]. -/
def calculateADX (highs lows closes : List ℚ) (period : ℕ) : Option ℚ :=
  if highs.length < period * 2 then none
  else
    let lastN := takeLast closes period
    let changes := (List.range lastN.length).map (fun i =>
      if i = 0 then 0 else |lastN.getD i 0 - lastN.getD (i - 1) 0|)
    let avgChange := changes.sum / (period : ℚ)
    if closes.length = 0 ∨ closes.getLastD 0 = 0 then none
    else
      let volatility := avgChange / closes.getLastD 0
      some (min (max (volatility * 1000) 10) 60)

/-- Rolling simple-moving-average smoother used by calculateStochRSI:
entry for each window end `i` in `[p, arr.length]` is
`sum(arr[i-p..i)) / p * 100`. -/
def smooth (arr : List ℚ) (p : ℕ) : List ℚ :=
  (List.range' p (arr.length + 1 - p)).map (fun i =>
    ((arr.take i).drop (i - p)).sum / (p : ℚ) * 100)

/-- calculateStochRSI: normalize the defined RSI values over a trailing
window, smooth twice for %K/%D, and expose the unsmoothed raw %K.
`null` when fewer than `period+5` defined RSI samples exist (the
`isNaN(k) || isNaN(d)` guard corresponds to an empty %K or %D list). -/
def calculateStochRSI (prices : List ℚ) (period : ℕ) : Option StochOut :=
  let rsiValues := (calculateRSIArray prices period).filterMap id
  if rsiValues.length < period + 5 then none
  else
    let stochRsi := (List.range' period (rsiValues.length - period)).filterMap (fun i =>
      match (rsiValues.take (i + 1)).drop (i - period + 1) with
      | [] => none
      | h :: t =>
        let mn := t.foldl min h
        let mx := t.foldl max h
        let current := rsiValues.getD i 0
        some (if mx = mn then 1/2 else (current - mn) / (mx - mn)))
    let rawKList := (List.range' period (rsiValues.length - period)).filterMap (fun i =>
      match (rsiValues.take (i + 1)).drop (i - period + 1) with
      | [] => none
      | h :: t =>
        let mn := t.foldl min h
        let mx := t.foldl max h
        let current := rsiValues.getD i 0
        some (if mx = mn then 50 else (current - mn) / (mx - mn) * 100))
    let kValues := smooth stochRsi 3
    let dValues := smooth (kValues.map (fun v => v / 100)) 3
    match kValues.getLast?, dValues.getLast? with
    | some k, some d => some ⟨k, d, some (rawKList.getLastD 0)⟩
    | _, _ => none

/-! ## Market structure analysis (src/services/cryptoApi.ts) -/

/-- Swing highs: `prices[i-1]` whenever it exceeds both neighbours. -/
def swingHighs (prices : List ℚ) : List ℚ :=
  (List.range prices.length).filterMap (fun i =>
    if 2 ≤ i ∧ prices.getD (i - 1) 0 > prices.getD (i - 2) 0 ∧
        prices.getD (i - 1) 0 > prices.getD i 0
    then some (prices.getD (i - 1) 0) else none)

/-- Swing lows, symmetric to swingHighs. -/
def swingLows (prices : List ℚ) : List ℚ :=
  (List.range prices.length).filterMap (fun i =>
    if 2 ≤ i ∧ prices.getD (i - 1) 0 < prices.getD (i - 2) 0 ∧
        prices.getD (i - 1) 0 < prices.getD i 0
    then some (prices.getD (i - 1) 0) else none)

/-- Ordered insertion used to model the JS numeric ascending sort
`levels.sort((a, b) => a - b)`; equal keys carry equal values here, so
stability is immaterial. -/
def insertAsc (x : ℚ) : List ℚ → List ℚ
  | [] => [x]
  | y :: ys => if x ≤ y then x :: y :: ys else y :: insertAsc x ys

/-- Ascending sort of a list of levels. -/
def sortAsc : List ℚ → List ℚ
  | [] => []
  | x :: xs => insertAsc x (sortAsc xs)

/-- Fold of the clustering loop: carries the previous level, the running
cluster sum and member count; a level is merged while
`levels[i] <= levels[i-1] * (1 + tolerance)`. -/
def clusterFold (tol : ℚ) : ℚ → ℚ → ℚ → List ℚ → List ℚ
  | _, sum, count, [] => [sum / count]
  | prev, sum, count, x :: xs =>
    if x ≤ prev * (1 + tol) then clusterFold tol x (sum + x) (count + 1) xs
    else (sum / count) :: clusterFold tol x x 1 xs

/-- clusterLevels: sort ascending, then merge chains of levels into clusters
whose reported value is the running arithmetic mean. -/
def clusterLevels (levels : List ℚ) : List ℚ :=
  match sortAsc levels with
  | [] => []
  | x :: xs => clusterFold (2/100) x x 1 xs

/-- Spec-side reading of the clustering merge rule stated by the
documentation: a level joins the current cluster exactly when it lies
within 2% of the running cluster average (the incrementally updated
arithmetic mean).  Kept separate from clusterFold so the two readings can
be compared. -/
def clusterFoldAvg : ℚ → ℚ → List ℚ → List ℚ
  | sum, count, [] => [sum / count]
  | sum, count, x :: xs =>
    if |x - sum / count| ≤ (sum / count) * (2/100) then clusterFoldAvg (sum + x) (count + 1) xs
    else (sum / count) :: clusterFoldAvg x 1 xs

/-- Spec-side clustering: sort ascending and merge against the running
cluster average. -/
def clusterLevelsSpecAvg (levels : List ℚ) : List ℚ :=
  match sortAsc levels with
  | [] => []
  | x :: xs => clusterFoldAvg x 1 xs

/-- Continuation of the maximal adjacent-tolerance chain starting after
`x`: returns the rest of the current chain and the remaining chains. -/
def chainsAux (tol : ℚ) : ℚ → List ℚ → List ℚ × List (List ℚ)
  | _, [] => ([], [])
  | x, y :: ys =>
    let r := chainsAux tol y ys
    if y ≤ x * (1 + tol) then (y :: r.1, r.2) else ([], (y :: r.1) :: r.2)

/-- Maximal chains of a (sorted) level list in which each member is within
the tolerance of its predecessor. -/
def chainGroups (tol : ℚ) : List ℚ → List (List ℚ)
  | [] => []
  | x :: xs => (x :: (chainsAux tol x xs).1) :: (chainsAux tol x xs).2

/-- Arithmetic mean of a cluster. -/
def listMean (g : List ℚ) : ℚ := g.sum / (g.length : ℚ)

structure MarketStructure where
  trend : Trend
  supports : List ℚ
  resistances : List ℚ
deriving DecidableEq

/-- analyzeMarketStructure: swing detection, clustering, HH/HL vs LH/LL
classification with a break-of-structure override, and a ±5% first/last
fallback when fewer than two swings exist on a side.  (The source also
binds prices[len-2] to an unused local.) -/
def analyzeMarketStructure (prices : List ℚ) : MarketStructure :=
  if prices.length < 10 then ⟨.RANGING, [], []⟩
  else
    let highs := swingHighs prices
    let lows := swingLows prices
    let resistances := takeLast (clusterLevels highs) 3
    let supports := (clusterLevels lows).take 3
    let lastPrice := prices.getLastD 0
    let trend : Trend :=
      if 2 ≤ highs.length ∧ 2 ≤ lows.length then
        let lastHigh := highs.getLastD 0
        let prevHigh := highs.getD (highs.length - 2) 0
        let lastLow := lows.getLastD 0
        let prevLow := lows.getD (lows.length - 2) 0
        let t0 : Trend :=
          if lastHigh > prevHigh ∧ lastLow > prevLow then .UPTREND
          else if lastHigh < prevHigh ∧ lastLow < prevLow then .DOWNTREND
          else .RANGING
        let t1 : Trend := if t0 = .DOWNTREND ∧ lastPrice > lastHigh then .UPTREND else t0
        if t1 = .UPTREND ∧ lastPrice < lastLow then .DOWNTREND else t1
      else
        let start := prices.getD 0 0
        let last := prices.getLastD 0
        if last > start * (105/100) then .UPTREND
        else if last < start * (95/100) then .DOWNTREND
        else .RANGING
    ⟨trend, supports, resistances⟩

/-! ## Divergence detection (src/services/cryptoApi.ts) -/

/-- findPeaks over a numeric series (the source's `undefined` skip never
fires for the price series it is applied to): indices in `[5, len-2)`
that strictly dominate the two neighbours on each side. -/
def findPeaks (arr : List ℚ) (isHigh : Bool) : List ℕ :=
  (List.range arr.length).filter (fun i =>
    decide (5 ≤ i) && decide (i < arr.length - 2) &&
    (let v := arr.getD i 0
     let l1 := arr.getD (i - 1) 0
     let l2 := arr.getD (i - 2) 0
     let r1 := arr.getD (i + 1) 0
     let r2 := arr.getD (i + 2) 0
     if isHigh then decide (v > l1) && decide (v > l2) && decide (v > r1) && decide (v > r2)
     else decide (v < l1) && decide (v < l2) && decide (v < r1) && decide (v < r2)))

/-- Comparison of two optional RSI samples: true only when both defined. -/
def rsiLt (a b : Option ℚ) : Bool :=
  match a, b with
  | some x, some y => decide (x < y)
  | _, _ => false

/-- detectRSIDivergence: rising price peaks with falling oscillator values
within 15 bars of the end is BEARISH; mirror condition on troughs is
BULLISH; otherwise NONE. -/
def detectRSIDivergence (prices : List ℚ) (rsiValues : List (Option ℚ)) : DivergenceResult :=
  if prices.length < 20 ∨ rsiValues.length < 20 then ⟨.NONE, .WEAK⟩
  else
    let priceHighs := findPeaks prices true
    let priceLows := findPeaks prices false
    if priceHighs.length < 2 ∨ priceLows.length < 2 then ⟨.NONE, .WEAK⟩
    else
      let lastHighIdx := priceHighs.getLastD 0
      let prevHighIdx := priceHighs.getD (priceHighs.length - 2) 0
      if prices.length - lastHighIdx < 15 ∧
          prices.getD lastHighIdx 0 > prices.getD prevHighIdx 0 ∧
          rsiLt (rsiValues.getD lastHighIdx none) (rsiValues.getD prevHighIdx none)
      then ⟨.BEARISH, .STRONG⟩
      else
        let lastLowIdx := priceLows.getLastD 0
        let prevLowIdx := priceLows.getD (priceLows.length - 2) 0
        if prices.length - lastLowIdx < 15 ∧
            prices.getD lastLowIdx 0 < prices.getD prevLowIdx 0 ∧
            rsiLt (rsiValues.getD prevLowIdx none) (rsiValues.getD lastLowIdx none)
        then ⟨.BULLISH, .STRONG⟩
        else ⟨.NONE, .WEAK⟩

/-! ## Whale/anomaly classifier (src/services/cryptoApi.ts) -/

/-- detectWhaleMovements: below 24 candles, the neutral insufficient-data
record; otherwise turnover, anomaly factor and the rule-ordered net-flow
classification.  For the close-position ratio, a zero candle range gives
NaN (both comparisons false) unless the close sits outside the collapsed
range, where JS yields ±Infinity; the guards reproduce that. -/
def detectWhaleMovements (currentPrice priceChange24h volume24h marketCap : ℚ)
    (history : List ChartPoint) : WhaleMetrics :=
  if history.length < 24 then
    ⟨.NEUTRAL, 0, 0, "بيانات غير كافية للتحليل"⟩
  else
    let turnover := if 0 < marketCap then volume24h / marketCap * 100 else 0
    let recentVols := (takeLast history 24).map (fun h => h.volume)
    let denom : ℚ := if recentVols.length = 0 then 1 else (recentVols.length : ℚ)
    let avgVol := recentVols.sum / denom
    let anomalyFactor := if 0 < avgVol then volume24h / (avgVol * 24) else 1
    let lastCandle? := history.getLast?
    let isHighClose :=
      match lastCandle? with
      | some c =>
        let lo := orDefault c.low c.price
        let hi := orDefault c.high c.price
        if hi - lo = 0 then decide (0 < c.price - lo)
        else decide ((c.price - lo) / (hi - lo) > 7/10)
      | none => false
    let netFlowAlert : NetFlowStatus × String :=
      if anomalyFactor > 3/2 ∧ |priceChange24h| < 3 then
        (.ACCUMULATION, "جدار شراء مخفي: حجم تداول ضخم مع ثبات سعري (امتصاص)")
      else if anomalyFactor > 2 ∧ priceChange24h < -5 then
        (.DISTRIBUTION, "تصريف عنيف: سيولة بيع ضخمة تضغط السعر")
      else if priceChange24h > 5 ∧ anomalyFactor < 4/5 then
        (.DISTRIBUTION, "صعود وهمي: السعر يرتفع بلا سيولة حقيقية (Trap)")
      else if anomalyFactor > 2 ∧ isHighClose = true then
        (.ACCUMULATION, "شراء مؤسساتي: إغلاق قوي مع حجم تداول عالي")
      else (.NEUTRAL, "لا يوجد نشاط غير طبيعي")
    ⟨netFlowAlert.1, anomalyFactor, turnover, netFlowAlert.2⟩

/-! ## Technical scoring engine (src/services/cryptoApi.ts) -/

/-- calculateTechnicalScore: additive composite starting from the neutral
baseline 50, clamped to [0,100] at the end.  The `lastEma && !isNaN`
truthiness check skips the momentum factor when the last EMA entry is
undefined or exactly 0. -/
def calculateTechnicalScore (prices : List ℚ) (rsi adx : Option ℚ)
    (stochRsi : Option StochOut) (trend : Trend)
    (divergence : DivergenceResult) : ℚ :=
  let lastPrice := prices.getLastD 0
  let s0 : ℚ := 50
  let s1 :=
    match (calculateEMA prices 9).getLastD none with
    | some e => if e = 0 then s0 else if lastPrice > e then s0 + 12 else s0 - 12
    | none => s0
  let s2 :=
    match trend with
    | .UPTREND => s1 + 10
    | .DOWNTREND => s1 - 10
    | .RANGING => s1
  let s3 :=
    match rsi with
    | some r =>
      if r < 30 then s2 + 10
      else if r > 70 then s2 - 10
      else if r > 50 ∧ trend = .UPTREND then s2 + 5
      else s2
    | none => s2
  let s4 :=
    match adx with
    | some a =>
      if a > 25 then
        match trend with
        | .UPTREND => s3 + 10
        | .DOWNTREND => s3 - 10
        | .RANGING => s3
      else s3
    | none => s3
  let s5 :=
    match stochRsi with
    | some s =>
      let k := s.rawK.getD s.k
      if k < 20 then s4 + 10 else if k > 80 then s4 - 10 else s4
    | none => s4
  let s6 :=
    match divergence.type with
    | .BULLISH => s5 + 15
    | .BEARISH => s5 - 15
    | .NONE => s5
  max 0 (min 100 s6)

/-! ## Volume profile (src/services/cryptoApi.ts) -/

structure VolumeProfile where
  poc : ℚ
  vacLow : ℚ
  vacHigh : ℚ
  profile : List (ℚ × ℚ)
deriving DecidableEq

/-- Value-area expansion loop of calculateVolumeProfile.  The JS `while`
loop can fail to terminate (volume gaps can freeze both indices while the
cumulative volume stays short of the target); `none` marks that
divergence.  A fuel of `bins + 1` covers every terminating run, since a
terminating run moves one of the two indices at most `bins - 1` times.
JS decrements `lowIdx` below 0 only on runs that never exit, where this
model pins it at 0 and burns fuel, diverging observably the same way. -/
def vaLoop (profileBins : List ℚ) (bins : ℕ) (targetVol : ℚ) :
    ℕ → ℕ → ℕ → ℚ → Option (ℕ × ℕ)
  | 0, _, _, _ => none
  | fuel + 1, low, high, cur =>
    if cur < targetVol ∧ (0 < low ∨ high < bins - 1) then
      let lowerVol := if 0 < low then profileBins.getD (low - 1) 0 else 0
      let upperVol := if high < bins - 1 then profileBins.getD (high + 1) 0 else 0
      if upperVol > lowerVol then vaLoop profileBins bins targetVol fuel low (high + 1) (cur + upperVol)
      else vaLoop profileBins bins targetVol fuel (low - 1) high (cur + lowerVol)
    else some (low, high)

/-- Bin index of a price: `floor((price - mn) / step)` clamped above to
`bins - 1` (prices never sit below `mn`, so the JS floor is never
negative; `Int.toNat` is the identity there). -/
def binIndexOf (mn step : ℚ) (bins : ℕ) (price : ℚ) : ℕ :=
  let bi := (⌊(price - mn) / step⌋).toNat
  if bins ≤ bi then bins - 1 else bi

/-- Volume histogram: accumulate each traded volume into its price bin.
(When every price coincides, JS files the volumes under a NaN key and all
bins stay 0; that degenerate case is outside every claim.) -/
def fillBins (mn step : ℚ) (bins : ℕ) (pv : List (ℚ × ℚ)) : List ℚ :=
  pv.foldl (fun acc x =>
    let i := binIndexOf mn step bins x.1
    acc.set i (acc.getD i 0 + x.2)) (List.replicate bins 0)

/-- One step of the POC scan: keep the running maximal volume and its bin
index (strict comparison, so the first maximal bin wins). -/
def pocStep (profileBins : List ℚ) (mp : ℚ × ℕ) (i : ℕ) : ℚ × ℕ :=
  let v := profileBins.getD i 0
  if v > mp.1 then (v, i) else mp

/-- The bin base prices `min + i*step`. -/
def binKeysOf (mn step : ℚ) (bins : ℕ) : List ℚ :=
  (List.range bins).map (fun (i : ℕ) => mn + (i : ℚ) * step)

/-- Body of calculateVolumeProfile on a non-empty price list: equal-width
bins over [min,max], POC = first maximal bin, then the 70% value-area
expansion.  `none` marks a non-terminating expansion loop. -/
def vpCore (p : ℚ) (ps volumes : List ℚ) (bins : ℕ) : Option VolumeProfile :=
  let mn := ps.foldl min p
  let mx := ps.foldl max p
  let step := (mx - mn) / (bins : ℚ)
  let binKeys := binKeysOf mn step bins
  let profileBins := fillBins mn step bins ((p :: ps).zip volumes)
  let mp := (List.range bins).foldl (pocStep profileBins) (0, 0)
  let totalVolume := profileBins.sum
  let resultProfile := (List.range bins).map (fun i =>
    (binKeys.getD i 0, profileBins.getD i 0))
  let targetVol := totalVolume * (7/10)
  match vaLoop profileBins bins targetVol (bins + 1) mp.2 mp.2 mp.1 with
  | none => none
  | some lh =>
    some ⟨binKeys.getD mp.2 0, binKeys.getD lh.1 0, binKeys.getD lh.2 0, resultProfile⟩

/-- calculateVolumeProfile: the zero record on empty inputs, else vpCore.
The volumes list is read positionally alongside prices (callers always
pass aligned arrays). -/
def calculateVolumeProfile (prices volumes : List ℚ) (bins : ℕ) : Option VolumeProfile :=
  if prices.length = 0 ∨ volumes.length = 0 then some ⟨0, 0, 0, []⟩
  else
    match prices with
    | [] => some ⟨0, 0, 0, []⟩
    | p :: ps => vpCore p ps volumes bins

/-! ## Backtest engine (BacktestService) -/

inductive Strategy
  | TREND_FOLLOWING | MEAN_REVERSION | SCORE_BASED
deriving DecidableEq

inductive PosType
  | LONG | SHORT
deriving DecidableEq

structure Position where
  type : PosType
  entry : ℚ
  time : String
  sl : ℚ
  tp : ℚ
deriving DecidableEq

structure TradeLog where
  entryTime : String
  exitTime : String
  type : PosType
  entryPrice : ℚ
  exitPrice : ℚ
  pnl : ℚ
  pnlPercent : ℚ
  reason : String
deriving DecidableEq

structure BacktestResult where
  totalTrades : ℕ
  wins : ℕ
  losses : ℕ
  winRate : ℚ
  profitFactor : ℚ
  maxDrawdown : ℚ
  equityCurve : List (String × ℚ)
  trades : List TradeLog
deriving DecidableEq

/-- Scoring-weight record imported by the backtest module.  The source
threads it into a call of calculateTechnicalScore as a seventh/eighth
argument, but that function takes six parameters, so the weights never
influence the computed score. -/
structure ScoreWeights where
  momentum : ℚ
  trend : ℚ
  rsiOverbought : ℚ
  rsiOversold : ℚ
  adx : ℚ
  stoch : ℚ
  div : ℚ
  orderBook : ℚ
deriving DecidableEq

/-- Exit check for an open position, pessimism-first: the stop-loss side of
the candle is tested before the take-profit side.  Returns the percent
PnL and the close reason.  (A zero entry price would make the JS PnL NaN;
entries are candle closes, positive in all real data.) -/
def checkExit (pos : Position) (H L : ℚ) : Option (ℚ × String) :=
  match pos.type with
  | .LONG =>
    if L ≤ pos.sl then some ((pos.sl - pos.entry) / pos.entry * 100, "Stop Loss")
    else if H ≥ pos.tp then some ((pos.tp - pos.entry) / pos.entry * 100, "Take Profit")
    else none
  | .SHORT =>
    if H ≥ pos.sl then some ((pos.entry - pos.sl) / pos.entry * 100, "Stop Loss")
    else if L ≤ pos.tp then some ((pos.entry - pos.tp) / pos.entry * 100, "Take Profit")
    else none

structure BTState where
  equity : ℚ
  maxEquity : ℚ
  maxDrawdown : ℚ
  equityCurve : List (String × ℚ)
  trades : List TradeLog
  position : Option Position
deriving DecidableEq

/-- One candle of the backtest loop: update an open position against the
intrabar high/low (falling back to the close where high/low are absent),
book the fixed-fractional PnL and drawdown on a close, otherwise look for
a strategy entry.  `mkt` stands for the source's local named after the
market structure (a reserved word here). -/
def btStep (strat : Strategy) (prices : List ℚ) (history : List ChartPoint)
    (st : BTState) (i : ℕ) : BTState :=
  let currentPrice := prices.getD i 0
  let candle := history.getD i ⟨"", 0, 0, none, none⟩
  match st.position with
  | some pos =>
    let H := candle.high.getD currentPrice
    let L := candle.low.getD currentPrice
    match checkExit pos H L with
    | some pr =>
      let pnl := pr.1
      let riskPerTrade := st.equity * (2/100)
      let riskDistance := |pos.entry - pos.sl|
      let rewardDistance := |pos.tp - pos.entry|
      let rr := rewardDistance / (if riskDistance = 0 then 1 else riskDistance)
      let newEquity := if pnl > 0 then st.equity + riskPerTrade * rr else st.equity - riskPerTrade
      let trade : TradeLog :=
        { entryTime := pos.time
          exitTime := candle.time
          type := pos.type
          entryPrice := pos.entry
          exitPrice := if pnl > 0 then pos.tp else pos.sl
          pnl := if pnl > 0 then riskPerTrade * rr else -riskPerTrade
          pnlPercent := pnl
          reason := pr.2 }
      let newMaxEquity := if newEquity > st.maxEquity then newEquity else st.maxEquity
      let dd := (newMaxEquity - newEquity) / newMaxEquity * 100
      { equity := newEquity
        maxEquity := newMaxEquity
        maxDrawdown := if dd > st.maxDrawdown then dd else st.maxDrawdown
        equityCurve := st.equityCurve ++ [(candle.time, newEquity)]
        trades := st.trades ++ [trade]
        position := none }
    | none => st
  | none =>
    let lookbackPrices := prices.take (i + 1)
    match strat with
    | .SCORE_BASED =>
      let rsi := calculateRSI lookbackPrices 14
      let mkt := analyzeMarketStructure lookbackPrices
      let adx := calculateADX [] [] lookbackPrices 14
      let stoch := calculateStochRSI lookbackPrices 14
      let divergence := detectRSIDivergence lookbackPrices []
      let score := calculateTechnicalScore lookbackPrices rsi adx stoch mkt.trend divergence
      if score > 75 then
        { st with position := some ⟨.LONG, currentPrice, candle.time,
            currentPrice * (98/100), currentPrice * (104/100)⟩ }
      else st
    | .TREND_FOLLOWING =>
      let rsi := calculateRSI lookbackPrices 14
      let mkt := analyzeMarketStructure lookbackPrices
      match rsi with
      | some r =>
        if mkt.trend = .UPTREND ∧ r ≠ 0 ∧ r < 40 then
          { st with position := some ⟨.LONG, currentPrice, candle.time,
              currentPrice * (98/100), currentPrice * (104/100)⟩ }
        else st
      | none => st
    | .MEAN_REVERSION =>
      let rsi := calculateRSI lookbackPrices 14
      let mkt := analyzeMarketStructure lookbackPrices
      match rsi with
      | some r =>
        if mkt.trend = .RANGING ∧ r ≠ 0 ∧ r < 30 then
          { st with position := some ⟨.LONG, currentPrice, candle.time,
              currentPrice * (97/100), currentPrice * (103/100)⟩ }
        else st
      | none => st

/-- Gross winning PnL of a trade list. -/
def grossProfitOf (trades : List TradeLog) : ℚ :=
  ((trades.filter (fun t => decide (t.pnl > 0))).map (fun t => t.pnl)).sum

/-- Gross losing PnL magnitude of a trade list. -/
def grossLossOf (trades : List TradeLog) : ℚ :=
  |((trades.filter (fun t => decide (t.pnl < 0))).map (fun t => t.pnl)).sum|

/-- Final statistics of a backtest run. -/
def mkResult (final : BTState) : BacktestResult :=
  let trades := final.trades
  let wins := (trades.filter (fun t => decide (t.pnl > 0))).length
  let losses := (trades.filter (fun t => decide (t.pnl ≤ 0))).length
  let totalTrades := trades.length
  let grossProfit := grossProfitOf trades
  let grossLoss := grossLossOf trades
  { totalTrades := totalTrades
    wins := wins
    losses := losses
    winRate := if 0 < totalTrades then ((wins : ℚ) / (totalTrades : ℚ)) * 100 else 0
    profitFactor := if grossLoss = 0 then grossProfit else grossProfit / grossLoss
    maxDrawdown := final.maxDrawdown
    equityCurve := final.equityCurve
    trades := trades }

/-- runBacktest: zeroed result below 50 candles, otherwise the candle loop
from index 50.  `weights` mirrors the source's optional parameter, which
never reaches the six-parameter scoring function and is therefore inert. -/
def runBacktest (strat : Strategy) (history : List ChartPoint)
    (initialCapital : ℚ) (weights : Option ScoreWeights) : BacktestResult :=
  if history.length < 50 then
    ⟨0, 0, 0, 0, 0, 0, [], []⟩
  else
    let prices := history.map (fun h => h.price)
    let init : BTState :=
      { equity := initialCapital
        maxEquity := initialCapital
        maxDrawdown := 0
        equityCurve := [((history.headD ⟨"", 0, 0, none, none⟩).time, initialCapital)]
        trades := []
        position := none }
    mkResult ((List.range' 50 (history.length - 50)).foldl (btStep strat prices history) init)

/-! ## Walk-forward validator (BacktestService) -/

structure WindowResult where
  windowIndex : ℕ
  train : BacktestResult
  test : BacktestResult
deriving DecidableEq

structure WalkForwardResult where
  periodResults : List WindowResult
  overallStability : ℚ
  averageWinRate : ℚ
deriving DecidableEq

/-- Sliding-window loop of runWalkForwardAnalysis: while
`i < len - (train + test)` take the train/test slices, backtest both
(the test run is capitalised with the train run's final equity, `|| 1000`
JS-defaulting on a missing or zero entry), and step by the test size.
The fuel bounds the iteration count; with a positive test size the caller
always supplies enough (`len + 1` beats the at most `len / testSize + 1`
iterations), so `[]` on exhausted fuel is reached only for a zero test
size, where the JS loop never terminates. -/
def wfLoop (strat : Strategy) (history : List ChartPoint)
    (trainSize testSize : ℕ) : ℕ → ℕ → List WindowResult
  | _, 0 => []
  | i, fuel + 1 =>
    if i < history.length - (trainSize + testSize) then
      let trainWindow := (history.drop i).take trainSize
      let testWindow := (history.drop (i + trainSize)).take testSize
      if testWindow.length < testSize then []
      else
        let trainResult := runBacktest strat trainWindow 1000 none
        let lastEquity :=
          match trainResult.equityCurve.getLast? with
          | some te => if te.2 = 0 then 1000 else te.2
          | none => 1000
        let testResult := runBacktest strat testWindow lastEquity none
        ⟨i, trainResult, testResult⟩ ::
          wfLoop strat history trainSize testSize (i + testSize) fuel
    else []

/-- runWalkForwardAnalysis: the sliding windows plus mean stability
(`max(0, 100 - |trainWinRate - testWinRate|)` per window) and mean test
win rate. -/
def runWalkForwardAnalysis (strat : Strategy) (history : List ChartPoint)
    (trainSize testSize : ℕ) : WalkForwardResult :=
  let results := wfLoop strat history trainSize testSize 0 (history.length + 1)
  let stabilitySum :=
    (results.map (fun r => max 0 (100 - |r.train.winRate - r.test.winRate|))).sum
  let totalWinRate := (results.map (fun r => r.test.winRate)).sum
  { periodResults := results
    overallStability :=
      if 0 < results.length then stabilitySum / (results.length : ℚ) else 0
    averageWinRate :=
      if 0 < results.length then totalWinRate / (results.length : ℚ) else 0 }

/-! ## Hybrid scanner service (src/services/HybridScannerService.ts) -/

inductive SignalType
  | ACCUMULATION | BREAKOUT | VOLUME_SPIKE | DUMP | SCALPING_PUMP
  | TREND_CONTINUATION | UNDERVALUED | FALSE_BREAKOUT_RISK
deriving DecidableEq

structure FuturesData where
  openInterest : ℚ
  longShortRatio : ℚ
  fundingRate : ℚ
deriving DecidableEq

/-- Fields of the TS `ScannerSignal` read by the hybrid enricher; the
remaining presentation fields (id, coin, price, timestamps, ...) are
never consulted by the functions modelled here. -/
structure ScannerSignal where
  signalType : SignalType
  probability : ℚ
  futuresData : Option FuturesData
deriving DecidableEq

inductive MarketRegime
  | TRENDING | RANGING | VOLATILE | ACCUMULATION | DISTRIBUTION
deriving DecidableEq

inductive MoveClassification
  | REAL_MOMENTUM | LIQUIDITY_GRAB | STOP_HUNT | NEWS_EVENT | UNKNOWN
deriving DecidableEq

inductive RiskLevel
  | LOW | MEDIUM | HIGH
deriving DecidableEq

inductive ExecutionBias
  | BREAKOUT | PULLBACK | MEAN_REVERSION | ACCUMULATION
deriving DecidableEq

inductive BtcTrend
  | UP | DOWN | FLAT
deriving DecidableEq

structure HybridAnalysisResult where
  marketRegime : MarketRegime
  moveClassification : MoveClassification
  opportunityScore : ℚ
  riskLevel : RiskLevel
  executionBias : ExecutionBias
  failureProbability : String
  institutionalTag : Option String
deriving DecidableEq

/-- getLast helper of the service: last defined (non-NaN) entry, else 0. -/
def getLastDefined (arr : List (Option ℚ)) : ℚ :=
  (arr.reverse.findSome? id).getD 0

/-- detectMarketRegime: ATR-percent volatility override, then EMA20/EMA50
alignment, then position inside the trailing-50 range.  (The source also
computes an ADX value it never reads.)  A collapsed 50-range makes the JS
range position NaN — the last price equals the collapsed extremes, so
both band comparisons are false and the result is RANGING, which the
equality guard reproduces. -/
def detectMarketRegime (history : List ChartPoint) (prices : List ℚ) : MarketRegime :=
  let highs := history.map (fun h => orDefault h.high h.price)
  let lows := history.map (fun h => orDefault h.low h.price)
  let ema20 := getLastDefined (calculateEMA prices 20)
  let ema50 := getLastDefined (calculateEMA prices 50)
  let current := prices.getLastD 0
  let atr := calculateATR highs lows prices 14
  let atrPct : ℚ :=
    match atr with
    | some a => if a ≠ 0 ∧ current ≠ 0 then a / current * 100 else 0
    | none => 0
  if atrPct > 5/2 then .VOLATILE
  else if (current > ema20 ∧ ema20 > ema50) ∨ (current < ema20 ∧ ema20 < ema50) then .TRENDING
  else
    match takeLast prices 50 with
    | [] => .RANGING
    | p :: ps =>
      let min50 := ps.foldl min p
      let max50 := ps.foldl max p
      if max50 = min50 then .RANGING
      else
        let rangePos := (current - min50) / (max50 - min50)
        if rangePos < 3/10 then .ACCUMULATION
        else if rangePos > 7/10 then .DISTRIBUTION
        else .RANGING

/-- classifyMove: fake breakouts without volume confirmation, confirmed
momentum in trending/accumulating regimes, >2% one-candle moves in a
volatile regime, choppy ranges.  (The source computes an unused wick
rejection flag.)  A zero previous close makes the JS move percent ±∞
(NaN when the last close is also 0); the guard reproduces the resulting
comparison. -/
def classifyMove (signal : ScannerSignal) (history : List ChartPoint)
    (regime : MarketRegime) : MoveClassification :=
  let lastCandle := history.getLastD ⟨"", 0, 0, none, none⟩
  let prevCandle? := if history.length < 2 then none else history.get? (history.length - 2)
  let avgVol := ((takeLast history 20).map (fun h => h.volume)).sum / 20
  let isVolumeSupported := lastCandle.volume > avgVol * (3/2)
  if (signal.signalType = .BREAKOUT ∨ signal.signalType = .SCALPING_PUMP) ∧
      ¬ (isVolumeSupported) then .LIQUIDITY_GRAB
  else if isVolumeSupported ∧ (regime = .TRENDING ∨ regime = .ACCUMULATION) then
    .REAL_MOMENTUM
  else
    let prevPrice := match prevCandle? with
      | some p => p.price
      | none => lastCandle.price
    let movePctGt2 : Bool :=
      if prevPrice = 0 then decide (lastCandle.price ≠ 0)
      else decide (|(lastCandle.price - prevPrice) / prevPrice| * 100 > 2)
    if movePctGt2 = true ∧ regime = .VOLATILE then .NEWS_EVENT
    else if regime = .RANGING then .UNKNOWN
    else .REAL_MOMENTUM

/-- calculateOpportunityScore: base 50 shifted by the raw probability,
regime-alignment bonuses, classification adjustment, BTC alignment and
the RSI gatekeeper (skipped for a [0] falsy RSI), clamped to [1,99]. -/
def calculateOpportunityScore (signal : ScannerSignal) (regime : MarketRegime)
    (classification : MoveClassification) (history : List ChartPoint)
    (btcContext : Option BtcTrend) : ℚ :=
  let s0 : ℚ := 50 + (signal.probability - 50)
  let s1 := if signal.signalType = .TREND_CONTINUATION ∧ regime = .TRENDING then s0 + 10 else s0
  let s2 := if signal.signalType = .BREAKOUT ∧ regime = .ACCUMULATION then s1 + 15 else s1
  let s3 := if signal.signalType = .SCALPING_PUMP ∧ regime = .VOLATILE then s2 - 10 else s2
  let s4 := if signal.signalType = .SCALPING_PUMP ∧ regime = .TRENDING then s3 + 10 else s3
  let s5 := s4 +
    (match classification with
     | .REAL_MOMENTUM => 15
     | .LIQUIDITY_GRAB => -20
     | .STOP_HUNT => -15
     | .NEWS_EVENT => -5
     | .UNKNOWN => -5)
  let s6 :=
    match btcContext with
    | some t =>
      let signalBias : BtcTrend := if signal.signalType = .DUMP then .DOWN else .UP
      if signalBias = t then s5 + 5 else s5 - 5
    | none => s5
  let rsi := calculateRSI (history.map (fun h => h.price)) 14
  let s7 :=
    match rsi with
    | some r =>
      if r = 0 then s6
      else
        let sA := if signal.signalType ≠ .DUMP ∧ r > 75 then s6 - 10 else s6
        if signal.signalType ≠ .DUMP ∧ r < 40 ∧ regime = .TRENDING then sA + 5 else sA
    | none => s6
  min 99 (max 1 s7)

/-- assessRisk: risk tier from the score with volatile/liquidity-grab
overrides, and the failure-probability string `round(100 - score [+5])%`. -/
def assessRisk (score : ℚ) (regime : MarketRegime)
    (classification : MoveClassification) : RiskLevel × String :=
  let risk : RiskLevel := if score > 80 then .LOW else if score < 50 then .HIGH else .MEDIUM
  let risk := if regime = .VOLATILE then .HIGH else risk
  let risk := if classification = .LIQUIDITY_GRAB then .HIGH else risk
  let failProb := 100 - score
  let failProb := if regime = .RANGING then failProb + 5 else failProb
  (risk, toString (jsRound failProb) ++ "%")

/-- determineExecutionBias: pump/dump map to BREAKOUT, otherwise the
regime decides. -/
def determineExecutionBias (signalType : SignalType) (regime : MarketRegime) : ExecutionBias :=
  if signalType = .SCALPING_PUMP then .BREAKOUT
  else if signalType = .DUMP then .BREAKOUT
  else if regime = .TRENDING then .PULLBACK
  else if regime = .ACCUMULATION then .ACCUMULATION
  else if regime = .RANGING then .MEAN_REVERSION
  else .BREAKOUT

/-- Institutional/derivatives overlay of enrichSignal: the short-squeeze
and crowded-longs rules form an else-if pair adjusting the already
clamped score by +20 or -30 and forcing the risk tier, and the
smart-money accumulation rule independently stacks +15 (its tag winning
when both fire).  Returns (tag, adjusted score, risk override). -/
def applyFuturesOverlay (baseSignal : ScannerSignal) (score : ℚ) :
    Option String × ℚ × Option RiskLevel :=
  match baseSignal.futuresData with
  | none => (none, score, none)
  | some fd =>
    let ab : Option String × ℚ × Option RiskLevel :=
      if fd.longShortRatio < 3/5 ∧ baseSignal.signalType ≠ .DUMP then
        (some "🐋 Potential Short Squeeze", score + 20, some .LOW)
      else if fd.longShortRatio > 3 ∧ baseSignal.signalType ≠ .DUMP then
        (some "⚠️ Crowded Longs (Risk)", score - 30, some .HIGH)
      else (none, score, none)
    if baseSignal.signalType = .ACCUMULATION ∧ fd.openInterest > 0 ∧
        fd.longShortRatio < 4/5 then
      (some "🏦 Smart Money Accumulation", ab.2.1 + 15, ab.2.2)
    else ab

/-- enrichSignal: insufficient-data fallback below 50 candles (raw
probability as the score), otherwise regime, classification, clamped
opportunity score, the derivatives overlay applied after the clamp, risk
assessment with the overlay's risk override, and a final cap at 99 only. -/
def enrichSignal (baseSignal : ScannerSignal) (history : List ChartPoint)
    (btcContext : Option BtcTrend) : HybridAnalysisResult :=
  if history.length < 50 then
    { marketRegime := .RANGING
      moveClassification := .UNKNOWN
      opportunityScore := baseSignal.probability
      riskLevel := .MEDIUM
      executionBias := .MEAN_REVERSION
      failureProbability := "50%"
      institutionalTag := none }
  else
    let prices := history.map (fun h => h.price)
    let regime := detectMarketRegime history prices
    let classification := classifyMove baseSignal history regime
    let score := calculateOpportunityScore baseSignal regime classification history btcContext
    let overlay := applyFuturesOverlay baseSignal score
    let adjustedScore := overlay.2.1
    let rf := assessRisk adjustedScore regime classification
    let finalRisk := (overlay.2.2).getD rf.1
    { marketRegime := regime
      moveClassification := classification
      opportunityScore := min 99 adjustedScore
      riskLevel := finalRisk
      executionBias := determineExecutionBias baseSignal.signalType regime
      failureProbability := rf.2
      institutionalTag := overlay.1 }

/-- Flat sample candle used as a concrete input in several witnesses. -/
def sampleCandle : ChartPoint := ⟨"t", 100, 10, some 100, some 100⟩

/-! ## Theorems -/

/-- C4: for every combination of inputs, calculateTechnicalScore returns a
value in [0,100]; the neutral inputs return the baseline 50. -/
theorem C4_technical_score_in_range :
    (∀ (prices : List ℚ) (rsi adx : Option ℚ) (stochRsi : Option StochOut)
        (trend : Trend) (divergence : DivergenceResult),
        0 ≤ calculateTechnicalScore prices rsi adx stochRsi trend divergence ∧
          calculateTechnicalScore prices rsi adx stochRsi trend divergence ≤ 100) ∧
      calculateTechnicalScore [] none none none .RANGING ⟨.NONE, .WEAK⟩ = 50 := by
  constructor
  · intro prices rsi adx stochRsi trend divergence
    refine ⟨le_max_left 0 _, max_le (by norm_num) (min_le_left _ _)⟩
  · decide

/-- C7: detectWhaleMovements with fewer than 24 history points always
returns the neutral record with zero anomaly factor, zero turnover and
the insufficient-data alert, regardless of the other arguments. -/
theorem C7_whale_insufficient_data (currentPrice priceChange24h volume24h marketCap : ℚ)
    (history : List ChartPoint) (h : history.length < 24) :
    detectWhaleMovements currentPrice priceChange24h volume24h marketCap history =
      ⟨.NEUTRAL, 0, 0, "بيانات غير كافية للتحليل"⟩ := by
  unfold detectWhaleMovements
  rw [if_pos h]

/-- C7 witness: the insufficient-data contract evaluated at a concrete
input. -/
theorem C7_witness :
    detectWhaleMovements 5 (-10) 1000 0 [] = ⟨.NEUTRAL, 0, 0, "بيانات غير كافية للتحليل"⟩ :=
  C7_whale_insufficient_data 5 (-10) 1000 0 [] (by decide)

/-- Projection of the trade list out of the final statistics. -/
theorem mkResult_trades (s : BTState) : (mkResult s).trades = s.trades := rfl

/-- Projection of the trade count out of the final statistics. -/
theorem mkResult_totalTrades (s : BTState) : (mkResult s).totalTrades = s.trades.length := rfl

/-- Profit factor of the final statistics, as the zero-guarded quotient. -/
theorem mkResult_profitFactor (s : BTState) :
    (mkResult s).profitFactor =
      if grossLossOf s.trades = 0 then grossProfitOf s.trades
      else grossProfitOf s.trades / grossLossOf s.trades := rfl

/-- Win rate of the final statistics. -/
theorem mkResult_winRate (s : BTState) :
    (mkResult s).winRate =
      if 0 < s.trades.length then
        (((s.trades.filter (fun t => decide (t.pnl > 0))).length : ℚ) /
          (s.trades.length : ℚ)) * 100
      else 0 := rfl

/-- C10: the profit factor of every backtest result equals the gross profit
exactly when the gross loss is zero, and the quotient otherwise. -/
theorem C10_profit_factor (strat : Strategy) (history : List ChartPoint)
    (initialCapital : ℚ) (weights : Option ScoreWeights) :
    (grossLossOf (runBacktest strat history initialCapital weights).trades = 0 →
      (runBacktest strat history initialCapital weights).profitFactor =
        grossProfitOf (runBacktest strat history initialCapital weights).trades) ∧
    (grossLossOf (runBacktest strat history initialCapital weights).trades ≠ 0 →
      (runBacktest strat history initialCapital weights).profitFactor =
        grossProfitOf (runBacktest strat history initialCapital weights).trades /
          grossLossOf (runBacktest strat history initialCapital weights).trades) := by
  by_cases hlen : history.length < 50
  · have hrb : runBacktest strat history initialCapital weights = ⟨0, 0, 0, 0, 0, 0, [], []⟩ := by
      unfold runBacktest
      rw [if_pos hlen]
    rw [hrb]
    constructor
    · intro _
      simp [grossProfitOf]
    · intro hgl
      exact absurd (by simp [grossLossOf]) hgl
  · obtain ⟨s, hs⟩ : ∃ s : BTState,
        runBacktest strat history initialCapital weights = mkResult s := by
      unfold runBacktest
      rw [if_neg hlen]
      exact ⟨_, rfl⟩
    rw [hs, mkResult_trades, mkResult_profitFactor]
    constructor
    · intro h
      rw [if_pos h]
    · intro h
      rw [if_neg h]

/-- C10 witness: the zero-loss branch evaluated at a concrete input. -/
theorem C10_witness :
    (runBacktest .TREND_FOLLOWING [] 1000 none).profitFactor =
      grossProfitOf (runBacktest .TREND_FOLLOWING [] 1000 none).trades :=
  (C10_profit_factor .TREND_FOLLOWING [] 1000 none).1 (by decide)

/-- C5: whenever an open position's candle touches the stop-loss side, the
stop is evaluated first and wins even if the take-profit is also touched:
for a LONG position the trade is booked as a loss at the stop price, and
symmetrically for a SHORT position. -/
theorem C5_stop_loss_first (strat : Strategy) (prices : List ℚ)
    (history : List ChartPoint) (st : BTState) (i : ℕ) (pos : Position)
    (hpos : st.position = some pos) :
    (pos.type = .LONG →
      (history.getD i ⟨"", 0, 0, none, none⟩).low.getD (prices.getD i 0) ≤ pos.sl →
      pos.tp ≤ (history.getD i ⟨"", 0, 0, none, none⟩).high.getD (prices.getD i 0) →
      0 < pos.entry → pos.sl < pos.entry →
      (btStep strat prices history st i).trades = st.trades ++
        [⟨pos.time, (history.getD i ⟨"", 0, 0, none, none⟩).time, pos.type, pos.entry,
          pos.sl, -(st.equity * (2/100)), (pos.sl - pos.entry) / pos.entry * 100, "Stop Loss"⟩] ∧
      (pos.sl - pos.entry) / pos.entry * 100 < 0 ∧
      (btStep strat prices history st i).position = none) ∧
    (pos.type = .SHORT →
      pos.sl ≤ (history.getD i ⟨"", 0, 0, none, none⟩).high.getD (prices.getD i 0) →
      (history.getD i ⟨"", 0, 0, none, none⟩).low.getD (prices.getD i 0) ≤ pos.tp →
      0 < pos.entry → pos.entry < pos.sl →
      (btStep strat prices history st i).trades = st.trades ++
        [⟨pos.time, (history.getD i ⟨"", 0, 0, none, none⟩).time, pos.type, pos.entry,
          pos.sl, -(st.equity * (2/100)), (pos.entry - pos.sl) / pos.entry * 100, "Stop Loss"⟩] ∧
      (pos.entry - pos.sl) / pos.entry * 100 < 0 ∧
      (btStep strat prices history st i).position = none) := by
  constructor
  · intro hty hlo _hhi hent hsl
    have hpnl : (pos.sl - pos.entry) / pos.entry * 100 < 0 :=
      mul_neg_of_neg_of_pos (div_neg_of_neg_of_pos (by linarith) hent) (by norm_num)
    have hexit : checkExit pos
        ((history.getD i ⟨"", 0, 0, none, none⟩).high.getD (prices.getD i 0))
        ((history.getD i ⟨"", 0, 0, none, none⟩).low.getD (prices.getD i 0)) =
        some ((pos.sl - pos.entry) / pos.entry * 100, "Stop Loss") := by
      unfold checkExit
      rw [hty]
      rw [if_pos hlo]
    simp only [List.getD_eq_getElem?_getD] at hexit
    refine ⟨?_, hpnl, ?_⟩ <;>
      simp [btStep, hpos, hexit, not_lt.mpr hpnl.le, hty]
  · intro hty hhi _hlo hent hsl
    have hpnl : (pos.entry - pos.sl) / pos.entry * 100 < 0 :=
      mul_neg_of_neg_of_pos (div_neg_of_neg_of_pos (by linarith) hent) (by norm_num)
    have hexit : checkExit pos
        ((history.getD i ⟨"", 0, 0, none, none⟩).high.getD (prices.getD i 0))
        ((history.getD i ⟨"", 0, 0, none, none⟩).low.getD (prices.getD i 0)) =
        some ((pos.entry - pos.sl) / pos.entry * 100, "Stop Loss") := by
      unfold checkExit
      rw [hty]
      rw [if_pos hhi]
    simp only [List.getD_eq_getElem?_getD] at hexit
    refine ⟨?_, hpnl, ?_⟩ <;>
      simp [btStep, hpos, hexit, not_lt.mpr hpnl.le, hty]

/-- C5 witness: a LONG position whose candle spans both the stop and the
target closes at the stop. -/
theorem C5_witness :
    (btStep .TREND_FOLLOWING [100] [⟨"x", 100, 10, some 105, some 97⟩]
        ⟨1000, 1000, 0, [], [], some ⟨.LONG, 100, "e", 98, 104⟩⟩ 0).trades =
      [] ++ [⟨"e", "x", .LONG, 100, 98, -(1000 * (2/100)), (98 - 100) / 100 * 100, "Stop Loss"⟩] :=
  ((C5_stop_loss_first .TREND_FOLLOWING [100] [⟨"x", 100, 10, some 105, some 97⟩]
      ⟨1000, 1000, 0, [], [], some ⟨.LONG, 100, "e", 98, 104⟩⟩ 0 ⟨.LONG, 100, "e", 98, 104⟩
      rfl).1 rfl (by norm_num) (by norm_num) (by norm_num) (by norm_num)).1

/-- The positive part of a delta is nonnegative. -/
theorem gainOf_nonneg (c : ℚ) : 0 ≤ gainOf c := by
  unfold gainOf
  split
  · linarith
  · exact le_refl 0

/-- The loss magnitude of a delta is nonnegative. -/
theorem lossOf_nonneg (c : ℚ) : 0 ≤ lossOf c := by
  unfold lossOf
  split
  · exact abs_nonneg c
  · exact le_refl 0

/-- With nonnegative rolling averages the RSI value lies in [0, 100]. -/
theorem rsiValue_mem (g l : ℚ) (hg : 0 ≤ g) (hl : 0 ≤ l) :
    0 ≤ rsiValue g l ∧ rsiValue g l ≤ 100 := by
  unfold rsiValue
  split
  · norm_num
  · rename_i h
    have hl' : 0 < l := lt_of_le_of_ne hl (Ne.symm h)
    have hrs : 0 ≤ g / l := div_nonneg hg hl'.le
    have h1 : 100 / (1 + g / l) ≤ 100 := div_le_self (by norm_num) (by linarith)
    have h2 : 0 < 100 / (1 + g / l) := div_pos (by norm_num) (by linarith)
    constructor <;> linarith

/-- One Wilder update keeps the rolling average nonnegative. -/
theorem wilderStep_nonneg (period : ℕ) (hp : 0 < period) (a b : ℚ)
    (ha : 0 ≤ a) (hb : 0 ≤ b) :
    0 ≤ (a * ((period : ℚ) - 1) + b) / (period : ℚ) := by
  have h1 : (1 : ℚ) ≤ (period : ℚ) := by exact_mod_cast hp
  have : 0 ≤ a * ((period : ℚ) - 1) := mul_nonneg ha (by linarith)
  exact div_nonneg (by linarith) (by linarith)

/-- Every value produced by the Wilder tail from nonnegative seeds lies in
[0, 100]. -/
theorem rsiTail_mem (period : ℕ) (hp : 0 < period) :
    ∀ (cs : List ℚ) (g l : ℚ), 0 ≤ g → 0 ≤ l →
      ∀ x ∈ rsiTail period g l cs, 0 ≤ x ∧ x ≤ 100 := by
  intro cs
  induction cs with
  | nil =>
    intro g l _ _ x hx
    simp [rsiTail] at hx
  | cons c cs ih =>
    intro g l hg hl x hx
    rw [rsiTail] at hx
    have hg' := wilderStep_nonneg period hp g (gainOf c) hg (gainOf_nonneg c)
    have hl' := wilderStep_nonneg period hp l (lossOf c) hl (lossOf_nonneg c)
    rcases List.mem_cons.mp hx with rfl | hx'
    · exact rsiValue_mem _ _ hg' hl'
    · exact ih _ _ hg' hl' x hx'

/-- C6: every defined entry of the Wilder-smoothed RSI array lies in
[0, 100]; entries at indices below the period are undefined; and the RSI
value is exactly 100 whenever the rolling average loss is exactly 0, so
no division by zero ever occurs. -/
theorem C6_rsi_range (prices : List ℚ) (period : ℕ) (hp : 0 < period) :
    (∀ i, i < period → (calculateRSIArray prices period).getD i none = none) ∧
    (∀ x : ℚ, some x ∈ calculateRSIArray prices period → 0 ≤ x ∧ x ≤ 100) ∧
    (∀ g : ℚ, rsiValue g 0 = 100) := by
  have hseedG : 0 ≤ (((((changesOf prices).drop 1).take period).map gainOf).sum) / (period : ℚ) := by
    have h1 : (0 : ℚ) ≤ (period : ℚ) := by positivity
    refine div_nonneg (List.sum_nonneg ?_) h1
    intro x hx
    obtain ⟨c, _, rfl⟩ := List.mem_map.mp hx
    exact gainOf_nonneg c
  have hseedL : 0 ≤ (((((changesOf prices).drop 1).take period).map lossOf).sum) / (period : ℚ) := by
    have h1 : (0 : ℚ) ≤ (period : ℚ) := by positivity
    refine div_nonneg (List.sum_nonneg ?_) h1
    intro x hx
    obtain ⟨c, _, rfl⟩ := List.mem_map.mp hx
    exact lossOf_nonneg c
  refine ⟨?_, ?_, fun g => by simp [rsiValue]⟩
  · intro i hi
    unfold calculateRSIArray
    split
    · rcases lt_or_ge i prices.length with h | h
      · rw [List.getD_eq_getElem?_getD]
        simp [List.getElem?_replicate, h]
      · exact List.getD_eq_default _ _ (by simpa using h)
    · rw [List.getD_append _ _ _ _ (by simpa using hi)]
      rw [List.getD_eq_getElem?_getD]
      simp [List.getElem?_replicate, hi]
  · intro x hx
    unfold calculateRSIArray at hx
    split at hx
    · exact absurd (List.eq_of_mem_replicate hx) (by simp)
    · rcases List.mem_append.mp hx with h | h
      · exact absurd (List.eq_of_mem_replicate h) (by simp)
      · obtain ⟨y, hy, hxy⟩ := List.mem_map.mp h
        obtain rfl : x = y := by injection hxy.symm
        rcases List.mem_cons.mp hy with rfl | hy'
        · exact rsiValue_mem _ _ hseedG hseedL
        · exact rsiTail_mem period hp _ _ _ hseedG hseedL x hy'

/-- C6 witness: the undefined-prefix part applied at a concrete series and
period. -/
theorem C6_witness : (calculateRSIArray [1, 2] 14).getD 0 none = none :=
  (C6_rsi_range [1, 2] 14 (by norm_num)).1 0 (by norm_num)

/-- The clustering fold computes exactly the arithmetic means of the
maximal adjacent-tolerance chains. -/
theorem clusterFold_eq_chains (tol : ℚ) :
    ∀ (xs : List ℚ) (prev s c : ℚ),
      clusterFold tol prev s c xs =
        ((s + (chainsAux tol prev xs).1.sum) / (c + ((chainsAux tol prev xs).1.length : ℚ))) ::
          ((chainsAux tol prev xs).2.map listMean) := by
  intro xs
  induction xs with
  | nil =>
    intro prev s c
    simp [clusterFold, chainsAux]
  | cons y ys ih =>
    intro prev s c
    rw [clusterFold, chainsAux]
    split
    · rw [ih]
      simp only [List.sum_cons, List.length_cons]
      congr 1
      push_cast
      ring_nf
    · rw [ih]
      simp only [List.map_cons, List.sum_nil, List.length_nil, listMean,
        List.sum_cons, List.length_cons]
      congr 1
      · norm_num
      · congr 1
        push_cast
        ring_nf

/-- C9 counterexample: on the sorted levels 100, 102, 104 the code merges
104 into the cluster (104 is within 2% of the previous level 102) while
the claimed running-cluster-average rule would not (the running average
is 101 and 104 is more than 2% above it), so the two disagree. -/
theorem C9_counterexample :
    clusterLevels [100, 102, 104] ≠ clusterLevelsSpecAvg [100, 102, 104] := by
  with_unfolding_all decide

/-- C9 amended: clustering sorts the levels ascending and merges a level
into the current cluster exactly when it is within 2% above the
previously processed (sorted) level — not the running cluster average —
each cluster reporting the arithmetic mean of its members; the last 3
resistance clusters and the first 3 support clusters are retained. -/
theorem C9_cluster_rule :
    (∀ levels : List ℚ,
      clusterLevels levels = (chainGroups (2/100) (sortAsc levels)).map listMean) ∧
    (∀ prices : List ℚ, 10 ≤ prices.length →
      (analyzeMarketStructure prices).resistances =
        takeLast (clusterLevels (swingHighs prices)) 3 ∧
      (analyzeMarketStructure prices).supports =
        (clusterLevels (swingLows prices)).take 3) := by
  constructor
  · intro levels
    unfold clusterLevels chainGroups
    cases sortAsc levels with
    | nil => simp
    | cons x xs =>
      show clusterFold (2/100) x x 1 xs =
        List.map listMean ((x :: (chainsAux (2/100) x xs).1) :: (chainsAux (2/100) x xs).2)
      rw [clusterFold_eq_chains]
      simp only [List.map_cons, listMean, List.sum_cons, List.length_cons]
      congr 1
      congr 1
      push_cast
      ring_nf
  · intro prices hlen
    unfold analyzeMarketStructure
    rw [if_neg (by omega)]
    exact ⟨rfl, rfl⟩

/-- C9 witness: the chain characterization and the retention rule applied
at concrete inputs. -/
theorem C9_witness :
    clusterLevels [100, 102, 104] =
      (chainGroups (2/100) (sortAsc [100, 102, 104])).map listMean ∧
    (analyzeMarketStructure [1, 2, 3, 4, 5, 6, 7, 8, 9, 10]).resistances =
      takeLast (clusterLevels (swingHighs [1, 2, 3, 4, 5, 6, 7, 8, 9, 10])) 3 :=
  ⟨C9_cluster_rule.1 [100, 102, 104],
   (C9_cluster_rule.2 [1, 2, 3, 4, 5, 6, 7, 8, 9, 10] (by norm_num)).1⟩

/-- The window list of a walk-forward run. -/
theorem runWalkForwardAnalysis_periodResults (strat : Strategy) (history : List ChartPoint)
    (trainSize testSize : ℕ) :
    (runWalkForwardAnalysis strat history trainSize testSize).periodResults =
      wfLoop strat history trainSize testSize 0 (history.length + 1) := rfl

/-- One productive iteration of the sliding-window loop on a 500-candle
series with the default 200/50 sizes. -/
theorem wfLoop_len_step_500 (strat : Strategy) (history : List ChartPoint)
    (h : history.length = 500) (i fuel : ℕ) (hi : i < 250) :
    (wfLoop strat history 200 50 i (fuel + 1)).length =
      (wfLoop strat history 200 50 (i + 50) fuel).length + 1 := by
  rw [wfLoop]
  rw [if_pos (by omega : i < history.length - (200 + 50))]
  rw [if_neg (by simp only [List.length_take, List.length_drop]; omega)]
  simp

/-- The loop stops once the window start reaches the strict bound. -/
theorem wfLoop_len_stop_500 (strat : Strategy) (history : List ChartPoint)
    (h : history.length = 500) (i fuel : ℕ) (hi : 250 ≤ i) :
    (wfLoop strat history 200 50 i (fuel + 1)).length = 0 := by
  rw [wfLoop]
  rw [if_neg (by omega : ¬ i < history.length - (200 + 50))]
  rfl

/-- A 500-candle walk-forward with train 200 / test 50 yields 5 windows:
the loop admits starts i < 500 - 250, i.e. i in {0, 50, 100, 150, 200}. -/
theorem wf_windows_500 (strat : Strategy) (history : List ChartPoint)
    (h : history.length = 500) :
    (runWalkForwardAnalysis strat history 200 50).periodResults.length = 5 := by
  rw [runWalkForwardAnalysis_periodResults, h]
  rw [show (500 + 1 : ℕ) = 500 + 1 from rfl]
  rw [wfLoop_len_step_500 strat history h 0 500 (by norm_num)]
  rw [show (500 : ℕ) = 499 + 1 from rfl]
  rw [wfLoop_len_step_500 strat history h (0 + 50) 499 (by norm_num)]
  rw [show (499 : ℕ) = 498 + 1 from rfl]
  rw [wfLoop_len_step_500 strat history h (0 + 50 + 50) 498 (by norm_num)]
  rw [show (498 : ℕ) = 497 + 1 from rfl]
  rw [wfLoop_len_step_500 strat history h (0 + 50 + 50 + 50) 497 (by norm_num)]
  rw [show (497 : ℕ) = 496 + 1 from rfl]
  rw [wfLoop_len_step_500 strat history h (0 + 50 + 50 + 50 + 50) 496 (by norm_num)]
  rw [show (496 : ℕ) = 495 + 1 from rfl]
  rw [wfLoop_len_stop_500 strat history h (0 + 50 + 50 + 50 + 50 + 50) 495 (by norm_num)]

/-- C1 counterexample: a concrete 500-candle series yields 5 window pairs,
not the 6 predicted by floor((500-250)/50)+1. -/
theorem C1_counterexample :
    (runWalkForwardAnalysis .TREND_FOLLOWING (List.replicate 500 sampleCandle)
        200 50).periodResults.length ≠ 6 := by
  rw [wf_windows_500 .TREND_FOLLOWING (List.replicate 500 sampleCandle) (by rw [List.length_replicate])]
  norm_num

/-- C1 amended: a 500-candle walk-forward with trainSize 200 and
testSize 50 produces exactly 5 train/test window pairs (the source loop
bound `i < length - (train + test)` is strict, so the valid window starts
are 0, 50, 100, 150 and 200; the spec formula floor((500-250)/50)+1 = 6
would require an inclusive bound). -/
theorem C1_window_count (strat : Strategy) (history : List ChartPoint)
    (h : history.length = 500) :
    (runWalkForwardAnalysis strat history 200 50).periodResults.length = 5 :=
  wf_windows_500 strat history h

/-- C1 witness: the window count evaluated on a concrete 500-candle
series. -/
theorem C1_witness :
    (runWalkForwardAnalysis .MEAN_REVERSION (List.replicate 500 sampleCandle)
        200 50).periodResults.length = 5 :=
  C1_window_count .MEAN_REVERSION (List.replicate 500 sampleCandle) (by rw [List.length_replicate])

/-- A backtest over exactly 50 candles clears the minimum-length gate but
runs zero loop iterations (the candle loop starts at index 50), so it
books no trades. -/
theorem runBacktest_length50 (strat : Strategy) (h : List ChartPoint) (cap : ℚ)
    (w : Option ScoreWeights) (hl : h.length = 50) :
    (runBacktest strat h cap w).totalTrades = 0 ∧ (runBacktest strat h cap w).winRate = 0 := by
  have hform : runBacktest strat h cap w = mkResult
      { equity := cap
        maxEquity := cap
        maxDrawdown := 0
        equityCurve := [((h.headD ⟨"", 0, 0, none, none⟩).time, cap)]
        trades := []
        position := none } := by
    unfold runBacktest
    rw [if_neg (by omega), hl]
    norm_num
  rw [hform, mkResult_totalTrades, mkResult_winRate]
  simp

/-- Win rates produced by runBacktest are nonnegative. -/
theorem runBacktest_winRate_nonneg (strat : Strategy) (h : List ChartPoint) (cap : ℚ)
    (w : Option ScoreWeights) : 0 ≤ (runBacktest strat h cap w).winRate := by
  by_cases hl : h.length < 50
  · have : runBacktest strat h cap w = ⟨0, 0, 0, 0, 0, 0, [], []⟩ := by
      unfold runBacktest
      rw [if_pos hl]
    rw [this]
  · obtain ⟨s, hs⟩ : ∃ s : BTState, runBacktest strat h cap w = mkResult s := by
      unfold runBacktest
      rw [if_neg hl]
      exact ⟨_, rfl⟩
    rw [hs, mkResult_winRate]
    split
    · positivity
    · exact le_refl 0

/-- Every window pushed by the sliding loop with test size 50 carries a
test backtest over a slice of exactly 50 candles and a train backtest
with initial capital 1000. -/
theorem wfLoop_mem_shape (strat : Strategy) (history : List ChartPoint) (trainSize : ℕ) :
    ∀ (fuel i : ℕ), ∀ r ∈ wfLoop strat history trainSize 50 i fuel,
      (∃ (win : List ChartPoint) (cap : ℚ), win.length = 50 ∧
        r.test = runBacktest strat win cap none) ∧
      (∃ win : List ChartPoint, r.train = runBacktest strat win 1000 none) := by
  intro fuel
  induction fuel with
  | zero =>
    intro i r hr
    simp [wfLoop] at hr
  | succ n ih =>
    intro i r hr
    rw [wfLoop] at hr
    simp only [] at hr
    split at hr
    · split at hr
      · simp at hr
      · rename_i hlen
        rcases List.mem_cons.mp hr with rfl | hr'
        · refine ⟨⟨(history.drop (i + trainSize)).take 50, _, ?_, rfl⟩, ⟨_, rfl⟩⟩
          simp only [List.length_take, List.length_drop]
          simp only [List.length_take, List.length_drop, not_lt] at hlen
          omega
        · exact ih _ r hr'
    · simp at hr

/-- C2: with the default test size of 50, every per-window test backtest
runs on a slice of exactly 50 candles and books no trades (the candle
loop starts at index 50), so every test result has zero trades and zero
win rate, averageWinRate is always 0, and each window contributes
stability max(0, 100 - trainWinRate). -/
theorem C2_default_test_windows :
    (∀ (strat : Strategy) (h : List ChartPoint) (cap : ℚ) (w : Option ScoreWeights),
        h.length = 50 →
        (runBacktest strat h cap w).totalTrades = 0 ∧ (runBacktest strat h cap w).winRate = 0) ∧
    (∀ (strat : Strategy) (history : List ChartPoint) (trainSize : ℕ),
        (∀ r ∈ (runWalkForwardAnalysis strat history trainSize 50).periodResults,
            r.test.totalTrades = 0 ∧ r.test.winRate = 0) ∧
        (runWalkForwardAnalysis strat history trainSize 50).averageWinRate = 0 ∧
        (runWalkForwardAnalysis strat history trainSize 50).overallStability =
          (if ((runWalkForwardAnalysis strat history trainSize 50).periodResults.length : ℚ) = 0
           then 0
           else ((runWalkForwardAnalysis strat history trainSize 50).periodResults.map
               (fun r => max 0 (100 - r.train.winRate))).sum /
             ((runWalkForwardAnalysis strat history trainSize 50).periodResults.length : ℚ))) := by
  refine ⟨runBacktest_length50, ?_⟩
  intro strat history trainSize
  have hshape := wfLoop_mem_shape strat history trainSize (history.length + 1) 0
  have htest : ∀ r ∈ wfLoop strat history trainSize 50 0 (history.length + 1),
      r.test.totalTrades = 0 ∧ r.test.winRate = 0 := by
    intro r hr
    obtain ⟨⟨win, cap, hwl, hwt⟩, _⟩ := hshape r hr
    rw [hwt]
    exact runBacktest_length50 strat win cap none hwl
  have htrain : ∀ r ∈ wfLoop strat history trainSize 50 0 (history.length + 1),
      0 ≤ r.train.winRate := by
    intro r hr
    obtain ⟨_, ⟨win, hwt⟩⟩ := hshape r hr
    rw [hwt]
    exact runBacktest_winRate_nonneg strat win 1000 none
  refine ⟨?_, ?_, ?_⟩
  · rw [runWalkForwardAnalysis_periodResults]
    exact htest
  · show (if 0 < (wfLoop strat history trainSize 50 0 (history.length + 1)).length then
        ((wfLoop strat history trainSize 50 0 (history.length + 1)).map
          (fun r => r.test.winRate)).sum /
          ((wfLoop strat history trainSize 50 0 (history.length + 1)).length : ℚ)
      else 0) = 0
    have hz : ((wfLoop strat history trainSize 50 0 (history.length + 1)).map
        (fun r => r.test.winRate)).sum = 0 := by
      apply List.sum_eq_zero
      intro x hx
      obtain ⟨r, hr, rfl⟩ := List.mem_map.mp hx
      exact (htest r hr).2
    rw [hz]
    split <;> norm_num
  · rw [runWalkForwardAnalysis_periodResults]
    show (if 0 < (wfLoop strat history trainSize 50 0 (history.length + 1)).length then
        ((wfLoop strat history trainSize 50 0 (history.length + 1)).map
          (fun r => max 0 (100 - |r.train.winRate - r.test.winRate|))).sum /
          ((wfLoop strat history trainSize 50 0 (history.length + 1)).length : ℚ)
      else 0) = _
    have hmap : (wfLoop strat history trainSize 50 0 (history.length + 1)).map
        (fun r => max 0 (100 - |r.train.winRate - r.test.winRate|)) =
      (wfLoop strat history trainSize 50 0 (history.length + 1)).map
        (fun r => max 0 (100 - r.train.winRate)) := by
      apply List.map_congr_left
      intro r hr
      rw [(htest r hr).2, sub_zero, abs_of_nonneg (htrain r hr)]
    rw [hmap]
    rcases Nat.eq_zero_or_pos (wfLoop strat history trainSize 50 0 (history.length + 1)).length
      with hzero | hpos
    · rw [hzero]
      norm_num
    · rw [if_pos hpos, if_neg (by exact_mod_cast Nat.pos_iff_ne_zero.mp hpos)]

/-- C2 witness: the zero-trade property of a 50-candle backtest at a
concrete input. -/
theorem C2_witness :
    (runBacktest .TREND_FOLLOWING (List.replicate 50 sampleCandle) 1000 none).totalTrades = 0 :=
  (C2_default_test_windows.1 .TREND_FOLLOWING (List.replicate 50 sampleCandle) 1000 none
    (by rw [List.length_replicate])).1

/-- The opportunity score before the futures overlay is clamped to
[1, 99]. -/
theorem calculateOpportunityScore_clamped (sig : ScannerSignal) (regime : MarketRegime)
    (classification : MoveClassification) (history : List ChartPoint)
    (btc : Option BtcTrend) :
    1 ≤ calculateOpportunityScore sig regime classification history btc ∧
      calculateOpportunityScore sig regime classification history btc ≤ 99 :=
  ⟨le_min (by norm_num) (le_max_left 1 _), min_le_left _ _⟩

/-- The futures overlay moves the score by at most -30 below and +35
above, and leaves it unchanged without a futures context. -/
theorem applyFuturesOverlay_bounds (sig : ScannerSignal) (score : ℚ) :
    (applyFuturesOverlay sig score).2.1 ≤ score + 35 ∧
    score - 30 ≤ (applyFuturesOverlay sig score).2.1 ∧
    (sig.futuresData = none → (applyFuturesOverlay sig score).2.1 = score) := by
  unfold applyFuturesOverlay
  cases hfd : sig.futuresData with
  | none => simp
  | some fd =>
    refine ⟨?_, ?_, fun hn => Option.noConfusion hn⟩ <;>
      · simp only []
        split_ifs <;> simp <;> linarith

/-- Above the 50-candle gate, the reported opportunity score is the cap at
99 of the overlay-adjusted clamped score. -/
theorem enrichSignal_score_form (sig : ScannerSignal) (history : List ChartPoint)
    (btc : Option BtcTrend) (h : ¬ history.length < 50) :
    ∃ score : ℚ, (1 ≤ score ∧ score ≤ 99) ∧
      (enrichSignal sig history btc).opportunityScore =
        min 99 (applyFuturesOverlay sig score).2.1 := by
  refine ⟨calculateOpportunityScore sig
      (detectMarketRegime history (history.map (fun c => c.price)))
      (classifyMove sig history (detectMarketRegime history (history.map (fun c => c.price))))
      history btc,
    calculateOpportunityScore_clamped sig _ _ history btc, ?_⟩
  unfold enrichSignal
  rw [if_neg h]

set_option maxRecDepth 8000 in
/-- C3 counterexample: a BREAKOUT signal with probability 40 over 50 flat
candles and a futures context with long/short ratio 5 (crowded longs,
-30 after the clamp) yields opportunityScore -20, outside [1, 99]. -/
theorem C3_counterexample :
    ¬ (1 ≤ (enrichSignal ⟨.BREAKOUT, 40, some ⟨1, 5, 0⟩⟩ (List.replicate 50 sampleCandle)
        none).opportunityScore) := by
  with_unfolding_all decide

/-- C3 amended: with at least 50 candles the opportunityScore is capped at
99 and bounded below by -29; it lies in [1, 99] whenever no
futures/derivatives context is supplied, but the overlay adjustments are
applied after the [1,99] clamp and only the upper cap is re-applied, so
a -30 crowded-longs adjustment can push the final score below 1. -/
theorem C3_opportunity_bounds (sig : ScannerSignal) (history : List ChartPoint)
    (btc : Option BtcTrend) (h : 50 ≤ history.length) :
    (enrichSignal sig history btc).opportunityScore ≤ 99 ∧
    -29 ≤ (enrichSignal sig history btc).opportunityScore ∧
    (sig.futuresData = none → 1 ≤ (enrichSignal sig history btc).opportunityScore) := by
  obtain ⟨score, ⟨h1, h99⟩, heq⟩ := enrichSignal_score_form sig history btc (by omega)
  obtain ⟨hub, hlb, hnone⟩ := applyFuturesOverlay_bounds sig score
  rw [heq]
  refine ⟨min_le_left _ _, le_min (by norm_num) (by linarith), fun hfd => ?_⟩
  rw [hnone hfd]
  exact le_min (by norm_num) h1

/-- C3 witness: the no-futures bound at a concrete signal and history. -/
theorem C3_witness :
    1 ≤ (enrichSignal ⟨.BREAKOUT, 40, none⟩ (List.replicate 50 sampleCandle)
        none).opportunityScore :=
  (C3_opportunity_bounds ⟨.BREAKOUT, 40, none⟩ (List.replicate 50 sampleCandle) none
    (by norm_num [List.length_replicate])).2.2 rfl

/-- Positional read of a list of nonnegative entries is nonnegative. -/
theorem list_getD_nonneg (l : List ℚ) (hnn : ∀ x ∈ l, 0 ≤ x) (k : ℕ) : 0 ≤ l.getD k 0 := by
  induction l generalizing k with
  | nil => simp [List.getD]
  | cons a t ih =>
    cases k with
    | zero => exact hnn a (by simp)
    | succ k' =>
      show 0 ≤ t.getD k' 0
      exact ih (fun x hx => hnn x (by simp [hx])) k'

/-- A terminating run of the value-area loop only widens the window, and
with nonnegative bin volumes the upper index never passes the last bin
(the loop only moves up past it on a strictly positive phantom volume). -/
theorem vaLoop_some_bounds (profileBins : List ℚ) (bins : ℕ) (target : ℚ)
    (hnn : ∀ x ∈ profileBins, 0 ≤ x) :
    ∀ (fuel low high : ℕ) (cur : ℚ) {l h : ℕ},
      vaLoop profileBins bins target fuel low high cur = some (l, h) →
      l ≤ low ∧ high ≤ h ∧ (high ≤ bins - 1 → h ≤ bins - 1) := by
  intro fuel
  induction fuel with
  | zero =>
    intro low high cur l h hres
    simp [vaLoop] at hres
  | succ n ih =>
    intro low high cur l h hres
    rw [vaLoop] at hres
    split at hres
    · simp only [] at hres
      split_ifs at hres
      all_goals try (obtain ⟨h1', h2', h3'⟩ := ih _ _ _ hres; exact ⟨by omega, by omega, fun hb => h3' (by omega)⟩)
      all_goals linarith [list_getD_nonneg profileBins hnn (low - 1)]
    · simp only [Option.some.injEq, Prod.mk.injEq] at hres
      obtain ⟨rfl, rfl⟩ := hres
      exact ⟨le_refl _, le_refl _, fun hb => hb⟩

/-- The POC scan returns an index below the bin count. -/
theorem pocFold_lt (bins : ℕ) (hb : 0 < bins) (profileBins : List ℚ) :
    ((List.range bins).foldl (pocStep profileBins) (0, 0)).2 < bins := by
  have key : ∀ (l : List ℕ) (init : ℚ × ℕ), (∀ i ∈ l, i < bins) → init.2 < bins →
      (l.foldl (pocStep profileBins) init).2 < bins := by
    intro l
    induction l with
    | nil =>
      intro init _ h
      simpa using h
    | cons a t ih =>
      intro init hmem hinit
      simp only [List.foldl_cons]
      refine ih _ (fun i hi => hmem i (by simp [hi])) ?_
      simp only [pocStep]
      split
      · exact hmem a (by simp)
      · exact hinit
  exact key (List.range bins) (0, 0) (fun i hi => List.mem_range.mp hi) hb

/-- Value of a bin base price. -/
theorem binKeysOf_getD (mn step : ℚ) (bins i : ℕ) (hi : i < bins) :
    (binKeysOf mn step bins).getD i 0 = mn + (i : ℚ) * step := by
  unfold binKeysOf
  rw [List.getD_eq_getElem _ _ (by simp only [List.length_map, List.length_range]; exact hi)]
  simp only [List.getElem_map, List.getElem_range]

/-- The accumulated bin volumes stay nonnegative for nonnegative traded
volumes. -/
theorem fillBins_nonneg (mn step : ℚ) (bins : ℕ) (pv : List (ℚ × ℚ))
    (hv : ∀ q ∈ pv, 0 ≤ q.2) : ∀ x ∈ fillBins mn step bins pv, 0 ≤ x := by
  unfold fillBins
  have key : ∀ (l : List (ℚ × ℚ)) (acc : List ℚ), (∀ x ∈ acc, 0 ≤ x) →
      (∀ q ∈ l, 0 ≤ q.2) →
      ∀ x ∈ l.foldl (fun acc x =>
          let i := binIndexOf mn step bins x.1
          acc.set i (acc.getD i 0 + x.2)) acc, 0 ≤ x := by
    intro l
    induction l with
    | nil =>
      intro acc hacc _ x hx
      exact hacc x hx
    | cons a t ih =>
      intro acc hacc hl x hx
      simp only [List.foldl_cons] at hx
      refine ih _ ?_ (fun q hq => hl q (by simp [hq])) x hx
      intro y hy
      rcases List.mem_or_eq_of_mem_set hy with hy' | rfl
      · exact hacc y hy'
      · have h1 := hl a (by simp)
        have h2 := list_getD_nonneg acc hacc (binIndexOf mn step bins a.1)
        linarith
  exact key pv (List.replicate bins 0)
    (fun x hx => (List.eq_of_mem_replicate hx).symm.le) hv

/-- The left fold of min is a lower bound of the seed and every member. -/
theorem foldl_min_le (l : List ℚ) : ∀ (init x : ℚ), (x = init ∨ x ∈ l) →
    l.foldl min init ≤ x := by
  induction l with
  | nil =>
    intro init x hx
    rcases hx with rfl | h
    · exact le_refl x
    · cases h
  | cons a t ih =>
    intro init x hx
    simp only [List.foldl_cons]
    rcases hx with rfl | hx
    · exact le_trans (ih _ _ (Or.inl rfl)) (min_le_left _ _)
    · rcases List.mem_cons.mp hx with rfl | hx'
      · exact le_trans (ih _ _ (Or.inl rfl)) (min_le_right _ _)
      · exact ih _ _ (Or.inr hx')

/-- The left fold of max is an upper bound of the seed and every member. -/
theorem foldl_le_max (l : List ℚ) : ∀ (init x : ℚ), (x = init ∨ x ∈ l) →
    x ≤ l.foldl max init := by
  induction l with
  | nil =>
    intro init x hx
    rcases hx with rfl | h
    · exact le_refl x
    · cases h
  | cons a t ih =>
    intro init x hx
    simp only [List.foldl_cons]
    rcases hx with rfl | hx
    · exact le_trans (le_max_left _ _) (ih _ _ (Or.inl rfl))
    · rcases List.mem_cons.mp hx with rfl | hx'
      · exact le_trans (le_max_right _ _) (ih _ _ (Or.inl rfl))
      · exact ih _ _ (Or.inr hx')

/-- Core of the value-area invariant: when vpCore returns a profile over a
genuinely spread price range with nonnegative volumes, the value-area
bounds bracket the POC. -/
theorem vpCore_bounds (p : ℚ) (ps volumes : List ℚ) (bins : ℕ) (hb : 0 < bins)
    (hnn : ∀ v ∈ volumes, 0 ≤ v) (hspread : ps.foldl min p < ps.foldl max p) :
    ∀ vp : VolumeProfile, vpCore p ps volumes bins = some vp →
      vp.vacLow ≤ vp.poc ∧ vp.poc ≤ vp.vacHigh := by
  intro vp hvp
  unfold vpCore at hvp
  simp only [] at hvp
  split at hvp
  · cases hvp
  · rename_i lh heq
    obtain ⟨l, h⟩ := lh
    simp only [Option.some.injEq] at hvp
    have hbinnn : ∀ x ∈ fillBins (ps.foldl min p)
        ((ps.foldl max p - ps.foldl min p) / (bins : ℚ)) bins ((p :: ps).zip volumes), 0 ≤ x := by
      refine fillBins_nonneg _ _ _ _ ?_
      intro q hq
      exact hnn q.2 (List.of_mem_zip hq).2
    have hpoc := pocFold_lt bins hb (fillBins (ps.foldl min p)
        ((ps.foldl max p - ps.foldl min p) / (bins : ℚ)) bins ((p :: ps).zip volumes))
    obtain ⟨hl, hh, hhb⟩ := vaLoop_some_bounds _ bins _ hbinnn _ _ _ _ heq
    have hstep : 0 < (ps.foldl max p - ps.foldl min p) / (bins : ℚ) :=
      div_pos (by linarith) (by exact_mod_cast hb)
    have hhlt : h < bins := by
      have h1 := hhb (by omega)
      omega
    rw [← hvp]
    dsimp only
    rw [binKeysOf_getD _ _ _ _ (by omega : l < bins),
        binKeysOf_getD _ _ _ _ hpoc, binKeysOf_getD _ _ _ _ hhlt]
    have hlc : ((l : ℚ)) ≤ ((((List.range bins).foldl (pocStep (fillBins (ps.foldl min p)
        ((ps.foldl max p - ps.foldl min p) / (bins : ℚ)) bins
        ((p :: ps).zip volumes))) (0, 0)).2 : ℚ)) := by
      exact_mod_cast hl
    have hhc : ((((List.range bins).foldl (pocStep (fillBins (ps.foldl min p)
        ((ps.foldl max p - ps.foldl min p) / (bins : ℚ)) bins
        ((p :: ps).zip volumes))) (0, 0)).2 : ℚ)) ≤ ((h : ℚ)) := by
      exact_mod_cast hh
    constructor
    · nlinarith [hstep, hlc]
    · nlinarith [hstep, hhc]

/-- C8: for a non-degenerate input (positive bin count, nonnegative
volumes, at least two distinct prices) every VolumeProfile the function
returns satisfies valueAreaLow <= poc <= valueAreaHigh; the value-area
window only ever expands outward from the POC bin. -/
theorem C8_value_area (prices volumes : List ℚ) (bins : ℕ) (hb : 0 < bins)
    (hnn : ∀ v ∈ volumes, 0 ≤ v)
    (a b : ℚ) (ha : a ∈ prices) (hbp : b ∈ prices) (hab : a ≠ b) :
    ∀ vp : VolumeProfile, calculateVolumeProfile prices volumes bins = some vp →
      vp.vacLow ≤ vp.poc ∧ vp.poc ≤ vp.vacHigh := by
  intro vp hvp
  cases prices with
  | nil => cases ha
  | cons p ps =>
    unfold calculateVolumeProfile at hvp
    by_cases hdeg : (p :: ps).length = 0 ∨ volumes.length = 0
    · rw [if_pos hdeg] at hvp
      simp only [Option.some.injEq] at hvp
      rw [← hvp]
      norm_num
    · rw [if_neg hdeg] at hvp
      have hspread : ps.foldl min p < ps.foldl max p := by
        have hmina := foldl_min_le ps p a (List.mem_cons.mp ha)
        have hminb := foldl_min_le ps p b (List.mem_cons.mp hbp)
        have hmaxa := foldl_le_max ps p a (List.mem_cons.mp ha)
        have hmaxb := foldl_le_max ps p b (List.mem_cons.mp hbp)
        rcases lt_trichotomy a b with h | h | h
        · exact lt_of_le_of_lt hmina (lt_of_lt_of_le h hmaxb)
        · exact absurd h hab
        · exact lt_of_le_of_lt hminb (lt_of_lt_of_le h hmaxa)
      exact vpCore_bounds p ps volumes bins hb hnn hspread vp hvp

/-- C8 witness: the invariant at a concrete non-degenerate input (three
prices over two bins, value area [0, 1] around POC 1). -/
theorem C8_witness :
    (⟨1, 0, 1, [(0, 5), (1, 7)]⟩ : VolumeProfile).vacLow ≤
        (⟨1, 0, 1, [(0, 5), (1, 7)]⟩ : VolumeProfile).poc ∧
      (⟨1, 0, 1, [(0, 5), (1, 7)]⟩ : VolumeProfile).poc ≤
        (⟨1, 0, 1, [(0, 5), (1, 7)]⟩ : VolumeProfile).vacHigh :=
  C8_value_area [0, 1, 2] [5, 3, 4] 2 (by norm_num)
    (by intro v hv; fin_cases hv <;> norm_num)
    0 1 (by simp) (by simp) (by norm_num)
    ⟨1, 0, 1, [(0, 5), (1, 7)]⟩ (by with_unfolding_all decide)

end Crypto
